import Mathlib

/-!
Verification of the meal-period resolution and rating subsystem of the
ColumbiaCals backend (`server.py`, `run_all_scrapers.py`).

Strings are modelled as `List Char`; Python's soft failures (`return None`)
become `Option`, and Python exceptions become `Except PyErr`.
-/

namespace ColumbiaCals

/-- Convert a Lean string literal to the `List Char` representation used
throughout this development. -/
def chars (s : String) : List Char := s.toList

/-- Python exceptions that the modelled code can raise. -/
inductive PyErr where
  | nameError
  | attributeError
  | typeError
  | valueError
deriving DecidableEq

/-- Whitespace characters stripped by Python's `str.strip()` / ignored by
`str.split()` (ASCII whitespace; exotic unicode spaces are not modelled). -/
def pyIsSpace (c : Char) : Bool :=
  c = ' ' || c = '\t' || c = '\n' || c = '\r' || c = '\x0b' || c = '\x0c'

/-- Python `str.lstrip()`. -/
def lstripWs (s : List Char) : List Char := s.dropWhile pyIsSpace

/-- Python `str.rstrip()`. -/
def rstripWs (s : List Char) : List Char := (s.reverse.dropWhile pyIsSpace).reverse

/-- Python `str.strip()`: drop whitespace from both ends. -/
def stripWs (s : List Char) : List Char := rstripWs (lstripWs s)

/-- Worker for `pySplitWs`: `acc` holds the current chunk, reversed. -/
def splitWsGo : List Char → List Char → List (List Char)
  | [], acc => if acc = [] then [] else [acc.reverse]
  | c :: cs, acc =>
      if pyIsSpace c then
        if acc = [] then splitWsGo cs [] else acc.reverse :: splitWsGo cs []
      else splitWsGo cs (c :: acc)

/-- Python `str.split()` with no arguments: split on runs of whitespace,
discarding empty chunks. -/
def pySplitWs (s : List Char) : List (List Char) := splitWsGo s []

/-- Split at the first occurrence of the character `sep`, like Python's
`s.split(sep, 1)` when `sep` occurs; `none` when it does not occur. -/
def splitAtChar (sep : Char) : List Char → Option (List Char × List Char)
  | [] => none
  | c :: cs =>
      if c = sep then some ([], cs)
      else
        match splitAtChar sep cs with
        | some p => some (c :: p.1, p.2)
        | none => none

/-- Decimal digit test, as used by Python's `int()` literal parsing. -/
def isAsciiDigit (c : Char) : Bool := '0' ≤ c && c ≤ '9'

/-- Numeric value of a decimal digit list (most significant digit first). -/
def digitsVal (l : List Char) : Nat :=
  l.foldl (fun a c => 10 * a + (c.toNat - 48)) 0

/-- Parse a nonempty all-digit list to its value; `none` otherwise. -/
def digitsToNat? (l : List Char) : Option Nat :=
  if l ≠ [] ∧ l.all isAsciiDigit then some (digitsVal l) else none

/-- Python `int(s)` on a string: surrounding whitespace is ignored, an
optional sign precedes a nonempty digit run.  (Underscore digit separators
and non-ASCII digits accepted by CPython are not modelled.) -/
def pyInt? (s : List Char) : Option Int :=
  match stripWs s with
  | [] => none
  | c :: cs =>
      if c = '+' then (digitsToNat? cs).map (fun n => (n : Int))
      else if c = '-' then (digitsToNat? cs).map (fun n => -(n : Int))
      else (digitsToNat? (c :: cs)).map (fun n => (n : Int))

/-- Python `str.upper()` (ASCII). -/
def upperChars (s : List Char) : List Char := s.map Char.toUpper

/-- Python `str.lower()` (ASCII). -/
def lowerChars (s : List Char) : List Char := s.map Char.toLower

/-- The hour arithmetic of `_parse_time_to_minutes` once `hour` and `minute`
have been parsed: PM adds 12 except to hour 12, and hour 12 AM becomes 0
(both `if`s act on the same `hour` variable, in this order). -/
def timeValue (hour minute : Int) (isPM : Bool) : Int :=
  let hour1 : Int := if isPM ∧ hour ≠ 12 then hour + 12 else hour
  let hour2 : Int := if ¬ (isPM = true) ∧ hour1 = 12 then 0 else hour1
  hour2 * 60 + minute

/-- The `try: hour = int(...); minute = int(...)` step and the hour
arithmetic: both conversions must succeed. -/
def parseTimeOfParsed (hourVal minuteVal : Option Int) (ampm : List Char) : Option Int :=
  match hourVal, minuteVal with
  | some hour, some minute =>
      some (timeValue hour minute (upperChars ampm = chars "PM"))
  | _, _ => none

/-- The body of `_parse_time_to_minutes` after the whitespace split has
produced exactly a time token and an AM/PM token. -/
def parseTimeWithParts (timePart ampm : List Char) : Option Int :=
  match splitAtChar ':' timePart with
  | none => none
  | some (hourStr, minuteStr) =>
      parseTimeOfParsed (pyInt? hourStr) (pyInt? minuteStr) ampm

/-- `len(parts) != 2` check of `_parse_time_to_minutes`. -/
def parseTimeFromParts : List (List Char) → Option Int
  | [timePart, ampm] => parseTimeWithParts timePart ampm
  | _ => none

/-- `_parse_time_to_minutes` from `server.py`: parse `"H:MM AM/PM"` into
minutes since midnight, returning `none` on malformed input (empty string,
wrong token count, missing colon, non-numeric hour or minute). -/
def parseTimeToMinutes (timeStr : List Char) : Option Int :=
  if timeStr = [] then none
  else parseTimeFromParts (pySplitWs (stripWs timeStr))

/-- The `" to " -> " - "` pass of `_parse_time_range`'s separator
normalization, i.e. Python `s.replace(" to ", " - ")`: scan left to right,
replacing non-overlapping occurrences and resuming after each replacement. -/
def replaceToDash : List Char → List Char
  | ' ' :: 't' :: 'o' :: ' ' :: rest => ' ' :: '-' :: ' ' :: replaceToDash rest
  | c :: rest => c :: replaceToDash rest
  | [] => []

/-- The full separator normalization of `_parse_time_range`:
`range_str.replace(" to ", " - ").replace(en_dash, "-").replace(em_dash, "-")`
(the last two are single-character replacements, i.e. maps). -/
def normalizeSeps (s : List Char) : List Char :=
  ((replaceToDash s).map (fun c => if c = '–' then '-' else c)).map
    (fun c => if c = '—' then '-' else c)

/-- Split at the first occurrence of the (nonempty) substring `pat`, like
Python's `s.split(pat, 1)`; `none` when `pat` does not occur (so `isSome`
models Python's `pat in s`). -/
def splitOnceSub (pat : List Char) : List Char → Option (List Char × List Char)
  | [] => none
  | c :: cs =>
      if pat.isPrefixOf (c :: cs) then some ([], List.drop pat.length (c :: cs))
      else (splitOnceSub pat cs).map (fun p => (c :: p.1, p.2))

/-- The tail of `_parse_time_range` once the split has produced the two
sides: strip each and parse it as a time of day. -/
def rangeFromSides (startStr endStr : List Char) : Option (Int × Int) :=
  match parseTimeToMinutes (stripWs startStr),
        parseTimeToMinutes (stripWs endStr) with
  | some s, some e => some (s, e)
  | _, _ => none

/-- `_parse_time_range` from `server.py`: normalize the separator, require
`" - "` to occur, split once on it, strip both sides, and parse each side
with `_parse_time_to_minutes`. -/
def parseTimeRange (rangeStr : List Char) : Option (Int × Int) :=
  if rangeStr = [] then none
  else
    match splitOnceSub (chars " - ") (normalizeSeps rangeStr) with
    | none => none
    | some (startStr, endStr) => rangeFromSides startStr endStr

/-- Characters of a time string on either side of a range separator: no
`'t'` (so no spurious `" to "` occurrence) and no dash of any kind.  Every
valid `"H:MM AM/PM"` time satisfies this. -/
def cleanRangeSide (l : List Char) : Prop :=
  ∀ c ∈ l, c ≠ 't' ∧ c ≠ '-' ∧ c ≠ '–' ∧ c ≠ '—'

instance (l : List Char) : Decidable (cleanRangeSide l) := by
  unfold cleanRangeSide
  infer_instance

/-- `_is_time_in_range` from `server.py`: half-open membership with
wraparound past midnight when `end < start`. -/
def isTimeInRange (currentMinutes startMinutes endMinutes : Int) : Bool :=
  if endMinutes < startMinutes then
    decide (currentMinutes ≥ startMinutes) || decide (currentMinutes < endMinutes)
  else
    decide (startMinutes ≤ currentMinutes) && decide (currentMinutes < endMinutes)

/-- The strip/lower/underscore pipeline of `_normalize_meal_type`:
`meal_type.strip().lower().replace(" ", "_")`. -/
def canonMeal (s : List Char) : List Char :=
  (lowerChars (stripWs s)).map (fun c => if c = ' ' then '_' else c)

/-- `_normalize_meal_type` from `server.py`.  The argument is `Option` since
the call sites pass `meal.get("meal_type")`, whose default is `None`; both
`None` and the empty string are falsy and map to `"unknown"`. -/
def normalizeMealType : Option (List Char) → List Char
  | none => chars "unknown"
  | some s =>
      if s = [] then chars "unknown"
      else
        let value := canonMeal s
        if (chars "late").isPrefixOf value then chars "late_night"
        else if value = chars "all_day" then chars "all_day"
        else value

/-- One meal block as consumed by `_get_hall_current_period`: the fields
`meal.get("meal_type")` (default `None`) and `meal.get("time", "")` of a
hall's meal dict.  (Both fields are strings in canonical documents; non-string
values, which would raise inside Python string methods, are not modelled.) -/
structure MealBlock where
  meal_type : Option (List Char)
  time : List Char

/-- The scan loop of `_get_hall_current_period`: the first meal whose time
range parses and contains the current minute yields its normalized type. -/
def hallPeriodLoop (currentMinutes : Int) : List MealBlock → Option (List Char)
  | [] => none
  | m :: ms =>
      match parseTimeRange m.time with
      | none => hallPeriodLoop currentMinutes ms
      | some (s, e) =>
          if isTimeInRange currentMinutes s e then
            some (normalizeMealType m.meal_type)
          else hallPeriodLoop currentMinutes ms

/-- Boolean test matching the loop's acceptance condition, used to state the
first-match characterization of the resolver. -/
def mealMatches (currentMinutes : Int) (m : MealBlock) : Bool :=
  match parseTimeRange m.time with
  | none => false
  | some (s, e) => isTimeInRange currentMinutes s e

/-- `_get_hall_current_period` from `server.py`, taking the hall's meal list
(`hall.get("meals", [])`; a non-dict hall likewise yields `[]`).
Modelled from the spec: `defaultPeriod` stands for the value of
`get_current_meal_period()` — the global default-period function lives in the
`meal_periods` module, which is not part of this repository snapshot — and
`currentMinutes` stands for `now.hour * 60 + now.minute` in the
America/New_York zone. -/
def getHallCurrentPeriod (defaultPeriod : List Char) (currentMinutes : Int)
    (meals : List MealBlock) : List Char :=
  match meals with
  | [] => defaultPeriod
  | first :: _ =>
      match hallPeriodLoop currentMinutes meals with
      | some p => p
      | none => normalizeMealType first.meal_type

/-- JSON-like Python values, as found in the menu documents: `None`, `bool`,
numbers (modelled as exact rationals), `str`, `list`, `dict` (an association
list in insertion order). -/
inductive JVal where
  | null
  | bool (b : Bool)
  | num (q : ℚ)
  | str (s : List Char)
  | arr (elems : List JVal)
  | obj (fields : List (List Char × JVal))

/-- Dict lookup by key (first binding wins), Python `d.get(k)` presence. -/
def jLookup (fields : List (List Char × JVal)) (k : List Char) : Option JVal :=
  match fields with
  | [] => none
  | (k', v) :: rest => if k' = k then some v else jLookup rest k

/-- Python `d.get(k, default)`. -/
def jGetD (fields : List (List Char × JVal)) (k : List Char) (d : JVal) : JVal :=
  (jLookup fields k).getD d

/-- Python truthiness of a value. -/
def pyTruthy : JVal → Bool
  | .null => false
  | .bool b => b
  | .num q => q ≠ 0
  | .str s => s ≠ []
  | .arr l => !l.isEmpty
  | .obj f => !f.isEmpty

/-- Python `a or b`: `a` when truthy, else `b`. -/
def pyOr (a b : JVal) : JVal := if pyTruthy a then a else b

/-- Worker for `pyTitle`; the flag records whether the previous character
was a letter. -/
def pyTitleGo : Bool → List Char → List Char
  | _, [] => []
  | prevAlpha, c :: cs =>
      if c.isAlpha then
        (if prevAlpha then c.toLower else c.toUpper) :: pyTitleGo true cs
      else c :: pyTitleGo false cs

/-- Python `str.title()` (ASCII letters): the first letter of every letter
run is uppercased, the rest lowercased. -/
def pyTitle (s : List Char) : List Char := pyTitleGo false s

/-- Python `str(v)` for the value kinds that can appear in a `meal_period`
field.  Python's repr of floats, lists and dicts is not reproduced exactly;
those cases never arise in the documents this development reasons about. -/
def pyStr : JVal → List Char
  | .str s => s
  | .null => chars "None"
  | .bool true => chars "True"
  | .bool false => chars "False"
  | .num q => chars (toString q.num ++ "/" ++ toString q.den)
  | .arr _ => chars "[...]"
  | .obj _ => chars "{...}"

/-- One MenuItem dict as built inside `_normalize_legacy_hall`'s item loop
for a raw item with display name `name` and source fields `data`
(`data = {}` when the raw item was a plain string). -/
def mkMenuItem (name : JVal) (data : List (List Char × JVal)) : JVal :=
  .obj [
    (chars "name", name),
    (chars "description", .null),
    (chars "allergens", .arr []),
    (chars "dietary_prefs", .arr []),
    (chars "calories", jGetD data (chars "calories") .null),
    (chars "protein", jGetD data (chars "protein") (jGetD data (chars "protein_g") .null)),
    (chars "carbs", jGetD data (chars "carbs") (jGetD data (chars "carbs_g") .null)),
    (chars "fat", jGetD data (chars "fat") (jGetD data (chars "fat_g") .null)),
    (chars "estimated", .bool (pyTruthy (jGetD data (chars "estimated") (.bool false))))]

/-- One iteration of the `for item in raw_items` loop of
`_normalize_legacy_hall`: a string item is its own name with empty data; a
dict item takes `item.get('name', '')` and itself as data; a falsy name is
skipped (`none`); any other item kind raises (`item.get` on it). -/
def buildMenuItem (item : JVal) : Except PyErr (Option JVal) :=
  match item with
  | .str s => if s = [] then .ok none else .ok (some (mkMenuItem (.str s) []))
  | .obj d =>
      let name := jGetD d (chars "name") (.str [])
      if pyTruthy name then .ok (some (mkMenuItem name d)) else .ok none
  | _ => .error .attributeError

/-- The whole item loop, preserving order and skipping falsy names. -/
def buildItems : List JVal → Except PyErr (List JVal)
  | [] => .ok []
  | x :: xs =>
      match buildMenuItem x with
      | .error e => .error e
      | .ok none => buildItems xs
      | .ok (some i) => (buildItems xs).map (fun rest => i :: rest)

/-- The canonical hall dict built by `_normalize_legacy_hall` from the
already-converted `items`: one synthetic meal block (title-cased
`meal_period`, `hours`/`operating_hours` time, a single `"Menu"` station),
status defaulting on whether items exist, `source` defaulting to
`"legacy"`.  `nowIso` models `datetime.now().isoformat()`. -/
def legacyCanonicalFields (nowIso : List Char)
    (fields : List (List Char × JVal)) (items : List JVal)
    : List (List Char × JVal) :=
  [
    (chars "name", jGetD fields (chars "name") (.str (chars "Dining Hall"))),
    (chars "meals", .arr [.obj [
      (chars "meal_type", .str (pyTitle (pyStr
        (jGetD fields (chars "meal_period") (.str (chars "meal")))))),
      (chars "time", jGetD fields (chars "hours")
        (jGetD fields (chars "operating_hours") (.str []))),
      (chars "stations", .arr [.obj [
          (chars "station", .str (chars "Menu")),
          (chars "items", .arr items)]])]]),
    (chars "status", jGetD fields (chars "status")
      (if !items.isEmpty then .str (chars "open")
        else .str (chars "open_no_menu"))),
    (chars "source", jGetD fields (chars "source") (.str (chars "legacy"))),
    (chars "scraped_at", jGetD fields (chars "scraped_at") (.str nowIso)),
    (chars "operating_hours", jGetD fields (chars "hours")
      (jGetD fields (chars "operating_hours") .null)),
    (chars "is_open", jGetD fields (chars "is_open") .null)]

/-- The canonical document as a `JVal`. -/
def legacyCanonicalDoc (nowIso : List Char)
    (fields : List (List Char × JVal)) (items : List JVal) : JVal :=
  .obj (legacyCanonicalFields nowIso fields items)

/-- The tail of `_normalize_legacy_hall` once the raw item values `xs` have
been determined: convert the items (propagating any exception) and build
the canonical document. -/
def legacyHallFromItems (nowIso : List Char)
    (fields : List (List Char × JVal)) (xs : List JVal) : Except PyErr JVal :=
  match buildItems xs with
  | .error e => .error e
  | .ok items => .ok (legacyCanonicalDoc nowIso fields items)

/-- `_normalize_legacy_hall` from `server.py`.  A dict that already has a
`meals` key is returned unchanged; otherwise a canonical document is built
from `food_items_with_nutrition` / `food_items`.  Python's `'meals' in hall`
on a list or string checks element/substring membership and, when it is
false, the subsequent `hall.get` raises; on other non-dict values the
membership test itself raises. -/
def normalizeLegacyHall (nowIso : List Char) (hall : JVal) : Except PyErr JVal :=
  match hall with
  | .obj fields =>
      if (jLookup fields (chars "meals")).isSome then .ok hall
      else
        let rawItems := pyOr (jGetD fields (chars "food_items_with_nutrition") .null)
          (pyOr (jGetD fields (chars "food_items") .null) (.arr []))
        match rawItems with
        | .arr xs => legacyHallFromItems nowIso fields xs
        | .str cs =>
            -- a truthy string is iterable: Python yields its characters
            legacyHallFromItems nowIso fields (cs.map (fun c => .str [c]))
        | .obj d =>
            -- a truthy dict is iterable: Python yields its keys
            legacyHallFromItems nowIso fields (d.map (fun kv => .str kv.1))
        | _ => .error .typeError
  | .arr elems =>
      if elems.any (fun e => match e with
          | .str s => decide (s = chars "meals")
          | _ => false) then .ok hall
      else .error .attributeError
  | .str cs =>
      if (splitOnceSub (chars "meals") cs).isSome then .ok hall
      else .error .attributeError
  | _ => .error .typeError

/-- Python `float(s)` on a string: optional surrounding whitespace, optional
sign, a decimal number `digits[.digits]`, `.digits` or `digits.`, and an
optional exponent.  (`inf`, `infinity` and `nan` literals are not modelled;
they pass `float()` but can never satisfy the `0 <= rating <= 10` check.) -/
def parseFloat? (s : List Char) : Option ℚ :=
  let t := stripWs s
  let signed : ℚ × List Char :=
    match t with
    | '+' :: r => (1, r)
    | '-' :: r => (-1, r)
    | _ => (1, t)
  let intPart := signed.2.takeWhile isAsciiDigit
  let afterInt := signed.2.dropWhile isAsciiDigit
  let withFrac : Option (ℚ × List Char) :=
    match afterInt with
    | '.' :: r2 =>
        let fracPart := r2.takeWhile isAsciiDigit
        if intPart = [] ∧ fracPart = [] then none
        else some ((digitsVal intPart : ℚ) + (digitsVal fracPart : ℚ) / 10 ^ fracPart.length,
          r2.dropWhile isAsciiDigit)
    | _ => if intPart = [] then none else some ((digitsVal intPart : ℚ), afterInt)
  match withFrac with
  | none => none
  | some (mant, rest) =>
      match rest with
      | [] => some (signed.1 * mant)
      | e :: r3 =>
          if e = 'e' ∨ e = 'E' then
            let expSigned : Bool × List Char :=
              match r3 with
              | '+' :: r4 => (false, r4)
              | '-' :: r4 => (true, r4)
              | _ => (false, r3)
            match digitsToNat? expSigned.2 with
            | some ex =>
                some (signed.1 * mant *
                  (if expSigned.1 then ((10 : ℚ) ^ ex)⁻¹ else (10 : ℚ) ^ ex))
            | none => none
          else none

/-- Python `float(v)` as used on `data['rating']` in `post_rating`: numbers
pass through, booleans coerce to 0/1, strings are parsed, and every other
kind raises `TypeError` (caught by the same `except` clause as `ValueError`,
so both are modelled as `none`). -/
def pyFloat? : JVal → Option ℚ
  | .num q => some q
  | .bool b => some (if b then 1 else 0)
  | .str s => parseFloat? s
  | _ => none

/-- Round a rational to the nearest integer, ties to even — the rounding mode
of Python 3's `round`. -/
def roundHalfEven (x : ℚ) : ℤ :=
  let f := ⌊x⌋
  let r := x - (f : ℚ)
  if r < 1 / 2 then f
  else if 1 / 2 < r then f + 1
  else if f % 2 = 0 then f else f + 1

/-- Python `round(x, 1)`.  (Python rounds the IEEE-754 double nearest the
submitted value; this model rounds the exact rational half-to-even, which
agrees on values such as 7.46 whose double rounds the same way.) -/
def pyRound1 (q : ℚ) : ℚ := (roundHalfEven (q * 10) : ℚ) / 10

/-- Observable outcome of `POST /api/ratings` (`post_rating` in
`server.py`), up to the call into the external ratings database. -/
inductive RatingOutcome where
  | missingFields
  | notANumber
  | outOfRange
  | serverError
  | success (mealPeriod : List Char) (university : List Char) (rating : ℚ)
deriving DecidableEq

/-- The `required` field list of `post_rating`. -/
def requiredFields : List (List Char) :=
  [chars "device_id", chars "hall_name", chars "university", chars "rating"]

/-- `all(field in data for field in required)`. -/
def requiredPresent (kvs : List (List Char × JVal)) : Bool :=
  requiredFields.all (fun k => (jLookup kvs k).isSome)

/-- The range check, rounding and university lowering of `post_rating` once
the rating has been coerced to the number `q`: out-of-range ratings are
rejected; otherwise the rating is rounded to one decimal and the request
proceeds (a non-string `university` raises on `.lower()` and surfaces as a
500, modelled as `serverError`). -/
def ratingOutcomeOfValue (resolvedPeriod : List Char)
    (kvs : List (List Char × JVal)) (q : ℚ) : RatingOutcome :=
  if 0 ≤ q ∧ q ≤ 10 then
    match jLookup kvs (chars "university") with
    | some (.str u) => .success resolvedPeriod (lowerChars u) (pyRound1 q)
    | _ => .serverError
  else .outOfRange

/-- The `float(data['rating'])` conversion step of `post_rating`. -/
def ratingOutcomeOfParsed (resolvedPeriod : List Char)
    (kvs : List (List Char × JVal)) (ratingVal : Option ℚ) : RatingOutcome :=
  match ratingVal with
  | none => .notANumber
  | some q => ratingOutcomeOfValue resolvedPeriod kvs q

/-- The body of `post_rating` after the required-fields check passed. -/
def ratingOutcomeOfBody (resolvedPeriod : List Char)
    (kvs : List (List Char × JVal)) : RatingOutcome :=
  match jLookup kvs (chars "rating") with
  | none => .missingFields
  | some rv => ratingOutcomeOfParsed resolvedPeriod kvs (pyFloat? rv)

/-- `post_rating` from `server.py`.  `body` is the parsed JSON body (`none`
models a missing/empty body, for which `request.get_json()` gives a falsy
value).  `resolvedPeriod` stands for the value of
`_get_hall_period_for_request(data['hall_name'], data['university'])`, which
is computed only after validation and rounding succeed. -/
def postRating (resolvedPeriod : List Char)
    (body : Option (List (List Char × JVal))) : RatingOutcome :=
  match body with
  | none => .missingFields
  | some kvs =>
      if kvs.isEmpty || !requiredPresent kvs then .missingFields
      else ratingOutcomeOfBody resolvedPeriod kvs

/-- The three client-error (HTTP 400) outcomes of `post_rating`. -/
def validationRejected : RatingOutcome → Bool
  | .missingFields => true
  | .notANumber => true
  | .outOfRange => true
  | _ => false

/-- A well-formed request body carrying an arbitrary rating value, used for
concrete instances. -/
def sampleBody (ratingVal : JVal) : List (List Char × JVal) :=
  [(chars "device_id", .str (chars "dev-1")),
   (chars "hall_name", .str (chars "John Jay Dining Hall")),
   (chars "university", .str (chars "Columbia")),
   (chars "rating", ratingVal)]

/-- A scraped hall record, i.e. one dict of the combined scrape result. -/
abbrev ScrapeRecord := List (List Char × JVal)

/-- `r.get('status') == 'error'` for one record. -/
def statusIsError (r : ScrapeRecord) : Bool :=
  match jLookup r (chars "status") with
  | some (.str s) => decide (s = chars "error")
  | _ => false

/-- `sum(1 for r in all_results if r.get('status') == 'error')`. -/
def errorCount (rs : List ScrapeRecord) : Nat := rs.countP statusIsError

/-- The save decision at the end of `run_all_scrapers`
(`run_all_scrapers.py`): when the combined results are nonempty and
`error_count > len(all_results) / 2` (Python float division, hence the exact
rational comparison), the existing `menu_data.json` is kept; otherwise the
combined results are written, replacing the file wholesale.  The result is
the menu file contents after the run (`none` = no file existed). -/
def saveCombinedResults (prevFile : Option (List ScrapeRecord))
    (allResults : List ScrapeRecord) : Option (List ScrapeRecord) :=
  if !allResults.isEmpty ∧
      ((errorCount allResults : ℚ) > (allResults.length : ℚ) / 2) then
    prevFile
  else some allResults

/-- Where one call of `_run_update_menus_guarded` (one thread spawned by
`trigger_refresh_async`) currently stands. -/
inductive ThreadPhase where
  | idle      -- spawned, about to enter the lock-protected check
  | running   -- set `_refresh_in_progress`, now executing `update_menus`
  | doneNoop  -- found the flag set and returned immediately
  | doneRan   -- finished the run (normally or not) and cleared the flag
deriving DecidableEq

/-- Shared state of the refresh orchestrator: the
`_refresh_in_progress` event plus the phases of all spawned threads. -/
structure RefreshState where
  inProgress : Bool
  threads : List ThreadPhase
deriving DecidableEq

/-- Process start: flag clear, no refresh thread spawned yet. -/
def initialRefreshState : RefreshState := ⟨false, []⟩

/-- Interleaving semantics of `trigger_refresh_async` /
`_run_update_menus_guarded`.  The check of `_refresh_in_progress` and its
`set()` happen atomically because both are performed under `_refresh_lock`;
the `finally` block clears the event whether `update_menus` returned or
raised (the `ok` flag records which, and does not affect the transition). -/
inductive RefreshStep : RefreshState → RefreshState → Prop where
  | spawn (s : RefreshState) :
      RefreshStep s ⟨s.inProgress, s.threads ++ [.idle]⟩
  | enterBusy (s : RefreshState) (i : Nat)
      (hi : s.threads[i]? = some .idle) (hf : s.inProgress = true) :
      RefreshStep s ⟨true, s.threads.set i .doneNoop⟩
  | enterFree (s : RefreshState) (i : Nat)
      (hi : s.threads[i]? = some .idle) (hf : s.inProgress = false) :
      RefreshStep s ⟨true, s.threads.set i .running⟩
  | finish (s : RefreshState) (i : Nat) (ok : Bool)
      (hi : s.threads[i]? = some .running) :
      RefreshStep s ⟨false, s.threads.set i .doneRan⟩

/-- States reachable from process start. -/
inductive RefreshReachable : RefreshState → Prop where
  | init : RefreshReachable initialRefreshState
  | step {s t : RefreshState} :
      RefreshReachable s → RefreshStep s t → RefreshReachable t

/-- Number of refresh runs currently in flight. -/
def runningCount (s : RefreshState) : Nat :=
  s.threads.countP (fun t => decide (t = ThreadPhase.running))

/-- `get_averages` from `server.py` (route `GET /api/ratings/averages`),
evaluated on a request with the given optional `university` query parameter.
After lowering the parameter, the next statement is
`meal_period = _get_hall_period_for_request(hall_name, university)`, but no
name `hall_name` is bound in this function or at module scope, so evaluation
raises `NameError` before the `try` block that assembles `hall_periods` and
the ratings dictionary is ever entered.  (The function body is also
syntactically inconsistent: the duplicated `return jsonify(...)` at lines
512-516 sits at an indentation level not on the block's indentation stack.) -/
def getAveragesEndpoint (universityArg : Option (List Char)) : Except PyErr JVal :=
  let _university : Option (List Char) := universityArg.map lowerChars
  .error .nameError

/-! ## Helper lemmas -/

/-- A rational strictly within one half of the integer `n` rounds to `n`. -/
theorem roundHalfEven_eq_of_near (x : ℚ) (n : ℤ)
    (h1 : (n : ℚ) - 1 / 2 < x) (h2 : x < (n : ℚ) + 1 / 2) :
    roundHalfEven x = n := by
  have hge : n - 1 ≤ ⌊x⌋ := Int.le_floor.mpr (by push_cast; linarith)
  have hle : ⌊x⌋ ≤ n := by
    have hx : (⌊x⌋ : ℚ) < (n : ℚ) + 1 := lt_of_le_of_lt (Int.floor_le x) (by linarith)
    exact_mod_cast Int.lt_add_one_iff.mp (by exact_mod_cast hx)
  unfold roundHalfEven
  rcases (by omega : ⌊x⌋ = n ∨ ⌊x⌋ = n - 1) with hf | hf
  · have hr : x - (⌊x⌋ : ℚ) < 1 / 2 := by rw [hf]; linarith
    rw [if_pos hr, hf]
  · have hr : 1 / 2 < x - (⌊x⌋ : ℚ) := by rw [hf]; push_cast; linarith
    rw [if_neg (by linarith), if_pos hr]
    omega

/-- `pyRound1` at a value strictly nearer to `n / 10` than to any other
tenth. -/
theorem pyRound1_eq_of_near (q : ℚ) (n : ℤ)
    (h1 : (n : ℚ) - 1 / 2 < q * 10) (h2 : q * 10 < (n : ℚ) + 1 / 2) :
    pyRound1 q = (n : ℚ) / 10 := by
  unfold pyRound1
  rw [roundHalfEven_eq_of_near (q * 10) n h1 h2]

/-- Exact-rational reading of Python's `error_count > len / 2`. -/
theorem half_lt_cast_iff (a b : ℕ) : ((a : ℚ) > (b : ℚ) / 2) ↔ 2 * a > b := by
  rw [gt_iff_lt, div_lt_iff₀ (by norm_num : (0 : ℚ) < 2)]
  constructor
  · intro h
    have : (b : ℚ) < (2 * a : ℕ) := by push_cast; linarith
    exact_mod_cast this
  · intro h
    have : (b : ℚ) < (2 * a : ℕ) := by exact_mod_cast h
    push_cast at this
    linarith

/-- The splitter skips leading whitespace. -/
theorem splitWsGo_ws_prepend (w r : List Char)
    (hw : ∀ c ∈ w, pyIsSpace c = true) :
    splitWsGo (w ++ r) [] = splitWsGo r [] := by
  induction w with
  | nil => rfl
  | cons c w ih =>
      have hc : pyIsSpace c = true := hw c (List.mem_cons_self c w)
      simp [splitWsGo, hc, ih (fun x hx => hw x (List.mem_cons_of_mem c hx))]

/-- The splitter accumulates a whitespace-free chunk. -/
theorem splitWsGo_chunk :
    ∀ (ch : List Char), (∀ c ∈ ch, pyIsSpace c = false) →
      ∀ r acc, splitWsGo (ch ++ r) acc = splitWsGo r (ch.reverse ++ acc) := by
  intro ch
  induction ch with
  | nil => intro _ r acc; simp
  | cons c ch ih =>
      intro h r acc
      have hc : pyIsSpace c = false := h c (List.mem_cons_self c ch)
      have h' : ∀ x ∈ ch, pyIsSpace x = false :=
        fun x hx => h x (List.mem_cons_of_mem c hx)
      calc splitWsGo ((c :: ch) ++ r) acc
          = splitWsGo (ch ++ r) (c :: acc) := by simp [splitWsGo, hc]
        _ = splitWsGo r (ch.reverse ++ (c :: acc)) := ih h' r (c :: acc)
        _ = splitWsGo r ((c :: ch).reverse ++ acc) := by simp

/-- All-whitespace input with an empty accumulator yields no tokens. -/
theorem splitWsGo_allws_nil :
    ∀ (w : List Char), (∀ c ∈ w, pyIsSpace c = true) → splitWsGo w [] = [] := by
  intro w
  induction w with
  | nil => intro _; rfl
  | cons c w ih =>
      intro h
      simp [splitWsGo, h c (List.mem_cons_self c w),
        ih (fun x hx => h x (List.mem_cons_of_mem c hx))]

/-- All-whitespace input flushes a nonempty accumulator as the last token. -/
theorem splitWsGo_ws_flush :
    ∀ (w acc : List Char), (∀ c ∈ w, pyIsSpace c = true) → acc ≠ [] →
      splitWsGo w acc = [acc.reverse] := by
  intro w
  induction w with
  | nil => intro acc _ hacc; simp [splitWsGo, hacc]
  | cons c w ih =>
      intro acc h hacc
      have hc : pyIsSpace c = true := h c (List.mem_cons_self c w)
      simp [splitWsGo, hc, hacc,
        splitWsGo_allws_nil w (fun x hx => h x (List.mem_cons_of_mem c hx))]

/-- Trailing whitespace does not affect the splitter. -/
theorem splitWsGo_append_ws :
    ∀ (m w acc : List Char), (∀ c ∈ w, pyIsSpace c = true) →
      splitWsGo (m ++ w) acc = splitWsGo m acc := by
  intro m
  induction m with
  | nil =>
      intro w acc h
      cases acc with
      | nil => simpa [splitWsGo] using splitWsGo_allws_nil w h
      | cons a acc => simpa [splitWsGo] using splitWsGo_ws_flush w (a :: acc) h (by simp)
  | cons c m ih =>
      intro w acc h
      by_cases hc : pyIsSpace c = true
      · cases acc with
        | nil => simp [splitWsGo, hc, ih w [] h]
        | cons a acc => simp [splitWsGo, hc, ih w [] h]
      · have hc' : pyIsSpace c = false := by simpa using hc
        simp [splitWsGo, hc', ih w (c :: acc) h]

/-- `strip()` before a no-argument `split()` is redundant. -/
theorem pySplitWs_strip (s : List Char) : pySplitWs (stripWs s) = pySplitWs s := by
  unfold pySplitWs stripWs lstripWs rstripWs
  have h1 : splitWsGo s [] = splitWsGo (s.dropWhile pyIsSpace) [] := by
    conv_lhs => rw [← List.takeWhile_append_dropWhile (p := pyIsSpace) (l := s)]
    exact splitWsGo_ws_prepend _ _ (fun c hc => List.mem_takeWhile_imp hc)
  have h2 : s.dropWhile pyIsSpace
      = ((s.dropWhile pyIsSpace).reverse.dropWhile pyIsSpace).reverse
        ++ ((s.dropWhile pyIsSpace).reverse.takeWhile pyIsSpace).reverse := by
    conv_lhs =>
      rw [← List.reverse_reverse (s.dropWhile pyIsSpace),
        ← List.takeWhile_append_dropWhile (p := pyIsSpace)
          (l := (s.dropWhile pyIsSpace).reverse)]
    rw [List.reverse_append]
  rw [h1]
  conv_rhs => rw [h2]
  exact (splitWsGo_append_ws _ _ []
    (fun c hc => List.mem_takeWhile_imp (List.mem_reverse.mp hc))).symm

/-- Splitting a padded two-token string yields exactly the two tokens. -/
theorem pySplitWs_two_tokens (ws1 t suf ws2 : List Char)
    (hws1 : ∀ c ∈ ws1, pyIsSpace c = true) (hws2 : ∀ c ∈ ws2, pyIsSpace c = true)
    (ht : t ≠ []) (htw : ∀ c ∈ t, pyIsSpace c = false)
    (hsuf : suf ≠ []) (hsufw : ∀ c ∈ suf, pyIsSpace c = false) :
    pySplitWs (ws1 ++ (t ++ ' ' :: (suf ++ ws2))) = [t, suf] := by
  unfold pySplitWs
  rw [splitWsGo_ws_prepend _ _ hws1, splitWsGo_chunk t htw _ [], List.append_nil]
  have hsp : pyIsSpace ' ' = true := by decide
  have htr : t.reverse ≠ [] := by simpa using ht
  simp only [splitWsGo, hsp, if_true, htr, if_neg htr, List.reverse_reverse]
  rw [splitWsGo_chunk suf hsufw _ [], List.append_nil,
    splitWsGo_ws_flush ws2 suf.reverse hws2 (by simpa using hsuf)]
  simp

/-- Splitting on a character that never occurs fails. -/
theorem splitAtChar_not_mem :
    ∀ (l : List Char) (sep : Char), (∀ c ∈ l, c ≠ sep) → splitAtChar sep l = none := by
  intro l sep
  induction l with
  | nil => intro _; rfl
  | cons c cs ih =>
      intro h
      have hc : c ≠ sep := h c (List.mem_cons_self c cs)
      simp [splitAtChar, hc, ih (fun x hx => h x (List.mem_cons_of_mem c hx))]

/-- Splitting at the first occurrence of the separator. -/
theorem splitAtChar_first :
    ∀ (pre : List Char), (∀ c ∈ pre, c ≠ sep) → ∀ post : List Char,
      splitAtChar sep (pre ++ sep :: post) = some (pre, post) := by
  intro pre
  induction pre with
  | nil => intro _ post; simp [splitAtChar]
  | cons c cs ih =>
      intro h post
      have hc : c ≠ sep := h c (List.mem_cons_self c cs)
      simp [splitAtChar, hc, ih (fun x hx => h x (List.mem_cons_of_mem c hx)) post]

/-- A decimal digit is not whitespace. -/
theorem digit_not_space (c : Char) (h : isAsciiDigit c = true) : pyIsSpace c = false := by
  cases hsp : pyIsSpace c with
  | false => rfl
  | true =>
      exfalso
      simp only [pyIsSpace, Bool.or_eq_true, decide_eq_true_eq] at hsp
      rcases hsp with ((((rfl | rfl) | rfl) | rfl) | rfl) | rfl <;>
        revert h <;> decide

/-- A decimal digit differs from any fixed non-digit character. -/
theorem digit_ne (c x : Char) (h : isAsciiDigit c = true)
    (hx : isAsciiDigit x = false) : c ≠ x := by
  intro e
  rw [e, hx] at h
  cases h

/-- Unfolding a successful `digitsToNat?`. -/
theorem digitsToNat?_eq_some (l : List Char) (n : Nat)
    (h : digitsToNat? l = some n) :
    l ≠ [] ∧ (∀ c ∈ l, isAsciiDigit c = true) ∧ digitsVal l = n := by
  unfold digitsToNat? at h
  split at h
  · next hcond =>
      refine ⟨hcond.1, ?_, by injection h⟩
      have := hcond.2
      simpa [List.all_eq_true] using this
  · cases h

/-- `strip()` leaves a whitespace-free string unchanged. -/
theorem stripWs_of_nows (l : List Char) (h : ∀ c ∈ l, pyIsSpace c = false) :
    stripWs l = l := by
  have hdrop : ∀ (m : List Char), (∀ c ∈ m, pyIsSpace c = false) →
      m.dropWhile pyIsSpace = m := by
    intro m hm
    cases m with
    | nil => rfl
    | cons c cs => simp [List.dropWhile_cons, hm c (List.mem_cons_self c cs)]
  unfold stripWs lstripWs rstripWs
  rw [hdrop l h, hdrop l.reverse (fun c hc => h c (List.mem_reverse.mp hc)),
    List.reverse_reverse]

/-- `int()` succeeds on a nonempty digit string and returns its value. -/
theorem pyInt?_digits (l : List Char) (n : Nat) (h : digitsToNat? l = some n) :
    pyInt? l = some (n : Int) := by
  obtain ⟨hne, hdig, _⟩ := digitsToNat?_eq_some l n h
  unfold pyInt?
  rw [stripWs_of_nows l (fun c hc => digit_not_space c (hdig c hc))]
  cases l with
  | nil => exact absurd rfl hne
  | cons c cs =>
      have hc := hdig c (List.mem_cons_self c cs)
      have hplus : c ≠ '+' := digit_ne c '+' hc (by decide)
      have hminus : c ≠ '-' := digit_ne c '-' hc (by decide)
      simp [hplus, hminus, h]

/-- Central decomposition lemma for `_parse_time_to_minutes`: on any padded
two-token input whose time token is `digits:digits`, the parse succeeds and
returns the hour arithmetic's value, with PM decided by the uppercased
second token. -/
theorem parseTimeToMinutes_decomposed (ws1 ws2 hd md suf : List Char)
    (hourN minuteN : Nat)
    (hws1 : ∀ c ∈ ws1, pyIsSpace c = true) (hws2 : ∀ c ∈ ws2, pyIsSpace c = true)
    (hhd : digitsToNat? hd = some hourN) (hmd : digitsToNat? md = some minuteN)
    (hsuf : suf ≠ []) (hsufw : ∀ c ∈ suf, pyIsSpace c = false) :
    parseTimeToMinutes (ws1 ++ ((hd ++ ':' :: md) ++ ' ' :: (suf ++ ws2)))
      = some (timeValue hourN minuteN (upperChars suf = chars "PM")) := by
  obtain ⟨hhdne, hhddig, _⟩ := digitsToNat?_eq_some hd hourN hhd
  obtain ⟨hmdne, hmddig, _⟩ := digitsToNat?_eq_some md minuteN hmd
  have ht : hd ++ ':' :: md ≠ [] := by simp
  have htw : ∀ c ∈ hd ++ ':' :: md, pyIsSpace c = false := by
    intro c hc
    rcases List.mem_append.mp hc with h1 | h2
    · exact digit_not_space c (hhddig c h1)
    · rcases List.mem_cons.mp h2 with rfl | h3
      · decide
      · exact digit_not_space c (hmddig c h3)
  unfold parseTimeToMinutes
  rw [if_neg (by simp), pySplitWs_strip,
    pySplitWs_two_tokens ws1 (hd ++ ':' :: md) suf ws2 hws1 hws2 ht htw hsuf hsufw]
  show parseTimeWithParts (hd ++ ':' :: md) suf = _
  unfold parseTimeWithParts
  rw [splitAtChar_first hd (fun c hc => digit_ne c ':' (hhddig c hc) (by decide)) md]
  show parseTimeOfParsed (pyInt? hd) (pyInt? md) suf = _
  rw [pyInt?_digits hd hourN hhd, pyInt?_digits md minuteN hmd]
  rfl

/-- Hour arithmetic in the AM case. -/
theorem timeValue_false (hour minute : Int) :
    timeValue hour minute false
      = if hour = 12 then minute else hour * 60 + minute := by
  unfold timeValue
  by_cases h : hour = 12 <;> simp [h]

/-- Hour arithmetic in the PM case. -/
theorem timeValue_true (hour minute : Int) :
    timeValue hour minute true
      = if hour = 12 then 720 + minute else (hour + 12) * 60 + minute := by
  unfold timeValue
  by_cases h : hour = 12 <;> simp [h]

/-- A token list of the wrong length fails the `len(parts) != 2` check. -/
theorem parseTimeFromParts_ne_two :
    ∀ parts : List (List Char), parts.length ≠ 2 →
      parseTimeFromParts parts = none := by
  intro parts h
  match parts with
  | [] => rfl
  | [a] => rfl
  | [a, b] => exact absurd rfl h
  | a :: b :: c :: rest => rfl

/-- One non-matching step of the `" to "` replacement: enough that the
second character is not `'t'`. -/
theorem replaceToDash_cons (c : Char) (cs : List Char)
    (h : cs.head? ≠ some 't') :
    replaceToDash (c :: cs) = c :: replaceToDash cs := by
  rw [replaceToDash.eq_def]
  split
  case h_1 rest heq =>
    exfalso
    injection heq with hc htail
    exact h (by rw [htail]; rfl)
  case h_2 x c' rest hno heq =>
    injection heq with hc htail
    rw [hc, htail]
  case h_3 x heq => cases heq

/-- The `" to "` replacement leaves a `'t'`-free string unchanged. -/
theorem replaceToDash_id :
    ∀ (l : List Char), (∀ c ∈ l, c ≠ 't') → replaceToDash l = l := by
  intro l
  induction l with
  | nil => intro _; rfl
  | cons c cs ih =>
      intro h
      have hh : cs.head? ≠ some 't' := by
        cases cs with
        | nil => simp
        | cons x xs => simpa using h x (List.mem_cons_of_mem c (List.mem_cons_self x xs))
      rw [replaceToDash_cons c cs hh, ih (fun x hx => h x (List.mem_cons_of_mem c hx))]

/-- The `" to "` replacement passes over a `'t'`-free left part whenever the
right part does not start with `'t'`. -/
theorem replaceToDash_append :
    ∀ (a : List Char), (∀ c ∈ a, c ≠ 't') → ∀ r : List Char, r.head? ≠ some 't' →
      replaceToDash (a ++ r) = a ++ replaceToDash r := by
  intro a
  induction a with
  | nil => intro _ r _; rfl
  | cons c a' ih =>
      intro ha r hr
      have ha' : ∀ x ∈ a', x ≠ 't' := fun x hx => ha x (List.mem_cons_of_mem c hx)
      have hh : (a' ++ r).head? ≠ some 't' := by
        cases a' with
        | nil => simpa using hr
        | cons x xs => simpa using ha' x (List.mem_cons_self x xs)
      rw [show (c :: a') ++ r = c :: (a' ++ r) from rfl,
        replaceToDash_cons c (a' ++ r) hh, ih ha' r hr]
      exact (List.cons_append c a' (replaceToDash r)).symm

/-- A single-character swap map leaves a string without that character
unchanged. -/
theorem map_swap_id (ch repl : Char) :
    ∀ (l : List Char), (∀ c ∈ l, c ≠ ch) →
      l.map (fun c => if c = ch then repl else c) = l := by
  intro l
  induction l with
  | nil => intro _; rfl
  | cons c cs ih =>
      intro h
      simp [ih (fun x hx => h x (List.mem_cons_of_mem c hx)),
        h c (List.mem_cons_self c cs)]

/-- One non-matching step of the substring splitter. -/
theorem splitOnceSub_cons_neg (pat : List Char) (c : Char) (cs : List Char)
    (h : pat.isPrefixOf (c :: cs) = false) :
    splitOnceSub pat (c :: cs)
      = (splitOnceSub pat cs).map (fun p => (c :: p.1, p.2)) := by
  simp only [splitOnceSub]
  rw [if_neg (by simp [h])]

/-- Splitting right at the separator. -/
theorem splitOnceSub_at_sep (b : List Char) :
    splitOnceSub (chars " - ") (chars " - " ++ b) = some ([], b) := by
  show splitOnceSub (chars " - ") (' ' :: '-' :: ' ' :: b) = some ([], b)
  simp only [splitOnceSub]
  rw [if_pos (by simp [List.isPrefixOf])]
  simp [chars]

/-- The substring splitter passes over a dash-free left part whenever the
right part does not start with a dash. -/
theorem splitOnceSub_skip :
    ∀ (a : List Char), (∀ c ∈ a, c ≠ '-') → ∀ r : List Char, r.head? ≠ some '-' →
      splitOnceSub (chars " - ") (a ++ r)
        = (splitOnceSub (chars " - ") r).map (fun p => (a ++ p.1, p.2)) := by
  intro a
  induction a with
  | nil =>
      intro _ r _
      cases hs : splitOnceSub (chars " - ") r <;> simp [hs]
  | cons c a' ih =>
      intro ha r hr
      have ha' : ∀ x ∈ a', x ≠ '-' := fun x hx => ha x (List.mem_cons_of_mem c hx)
      have hsnd : (a' ++ r).head? ≠ some '-' := by
        cases a' with
        | nil => simpa using hr
        | cons x xs => simpa using ha' x (List.mem_cons_self x xs)
      have hpre : (chars " - ").isPrefixOf (c :: (a' ++ r)) = false := by
        show ([' ', '-', ' '] : List Char).isPrefixOf (c :: (a' ++ r)) = false
        cases hsc : (a' ++ r) with
        | nil => simp [List.isPrefixOf]
        | cons x xs =>
            have hx : ¬ ('-' = x) := by
              intro e
              exact hsnd (by rw [hsc, ← e]; rfl)
            simp [List.isPrefixOf, hx]
      rw [show (c :: a') ++ r = c :: (a' ++ r) from rfl,
        splitOnceSub_cons_neg _ c _ hpre, ih ha' r hr]
      cases hs : splitOnceSub (chars " - ") r <;> simp

/-- Separator normalization on a clean-sided range string: all four
separator spellings become `" - "` and the sides are untouched. -/
theorem normalizeSeps_sep (a b sep : List Char)
    (ha : cleanRangeSide a) (hb : cleanRangeSide b)
    (hsep : sep = chars " - " ∨ sep = chars " to "
      ∨ sep = chars " – " ∨ sep = chars " — ") :
    normalizeSeps (a ++ (sep ++ b)) = a ++ (chars " - " ++ b) := by
  have haT : ∀ c ∈ a, c ≠ 't' := fun c hc => (ha c hc).1
  have hbT : ∀ c ∈ b, c ≠ 't' := fun c hc => (hb c hc).1
  have hbHead : b.head? ≠ some 't' := by
    cases b with
    | nil => simp
    | cons x xs => simpa using hbT x (List.mem_cons_self x xs)
  have hspHead : ∀ (r : List Char), (' ' :: r).head? ≠ some 't' := by
    intro r
    simp
  have hmap1a := map_swap_id '–' '-' a (fun c hc => (ha c hc).2.2.1)
  have hmap1b := map_swap_id '–' '-' b (fun c hc => (hb c hc).2.2.1)
  have hmap2a := map_swap_id '—' '-' a (fun c hc => (ha c hc).2.2.2)
  have hmap2b := map_swap_id '—' '-' b (fun c hc => (hb c hc).2.2.2)
  unfold normalizeSeps
  rcases hsep with rfl | rfl | rfl | rfl
  · rw [replaceToDash_append a haT _
        (show (chars " - " ++ b).head? ≠ some 't' from hspHead _),
      replaceToDash_append (chars " - ") (by decide) b hbHead,
      replaceToDash_id b hbT]
    simp only [List.map_append]
    rw [hmap1a, hmap1b,
      show (chars " - ").map (fun c => if c = '–' then '-' else c) = chars " - " from rfl,
      hmap2a, hmap2b,
      show (chars " - ").map (fun c => if c = '—' then '-' else c) = chars " - " from rfl]
  · rw [replaceToDash_append a haT _
        (show (chars " to " ++ b).head? ≠ some 't' from hspHead _),
      show replaceToDash (chars " to " ++ b) = chars " - " ++ replaceToDash b from rfl,
      replaceToDash_id b hbT]
    simp only [List.map_append]
    rw [hmap1a, hmap1b,
      show (chars " - ").map (fun c => if c = '–' then '-' else c) = chars " - " from rfl,
      hmap2a, hmap2b,
      show (chars " - ").map (fun c => if c = '—' then '-' else c) = chars " - " from rfl]
  · rw [replaceToDash_append a haT _
        (show (chars " – " ++ b).head? ≠ some 't' from hspHead _),
      replaceToDash_append (chars " – ") (by decide) b hbHead,
      replaceToDash_id b hbT]
    simp only [List.map_append]
    rw [hmap1a, hmap1b,
      show (chars " – ").map (fun c => if c = '–' then '-' else c) = chars " - " from rfl,
      hmap2a, hmap2b,
      show (chars " - ").map (fun c => if c = '—' then '-' else c) = chars " - " from rfl]
  · rw [replaceToDash_append a haT _
        (show (chars " — " ++ b).head? ≠ some 't' from hspHead _),
      replaceToDash_append (chars " — ") (by decide) b hbHead,
      replaceToDash_id b hbT]
    simp only [List.map_append]
    rw [hmap1a, hmap1b,
      show (chars " — ").map (fun c => if c = '–' then '-' else c) = chars " — " from rfl,
      hmap2a, hmap2b,
      show (chars " — ").map (fun c => if c = '—' then '-' else c) = chars " - " from rfl]

/-- The resolver's scan loop is a first-match search: it returns the
normalized type of the first meal whose range parses and contains the
current minute. -/
theorem hallPeriodLoop_find (now : Int) :
    ∀ meals : List MealBlock,
      hallPeriodLoop now meals
        = (meals.find? (mealMatches now)).map
            (fun m => normalizeMealType m.meal_type) := by
  intro meals
  induction meals with
  | nil => rfl
  | cons m ms ih =>
      cases hpr : parseTimeRange m.time with
      | none =>
          have hm : mealMatches now m = false := by simp [mealMatches, hpr]
          simp [hallPeriodLoop, hpr, List.find?, hm, ih]
      | some p =>
          cases hir : isTimeInRange now p.1 p.2 with
          | true =>
              have hm : mealMatches now m = true := by simp [mealMatches, hpr, hir]
              simp [hallPeriodLoop, hpr, hir, List.find?, hm]
          | false =>
              have hm : mealMatches now m = false := by simp [mealMatches, hpr, hir]
              simp [hallPeriodLoop, hpr, hir, List.find?, hm, ih]

/-- Unfolding of dict lookup on a cons cell. -/
theorem jLookup_cons (keyHead : List Char) (v : JVal)
    (rest : List (List Char × JVal)) (k : List Char) :
    jLookup ((keyHead, v) :: rest) k
      = if keyHead = k then some v else jLookup rest k := rfl

/-- A canonical document built by the legacy normalizer has a `meals` key,
so normalizing it again (with any clock) is the identity. -/
theorem normalizeLegacyHall_canonical (nowIso2 nowIso : List Char)
    (fields : List (List Char × JVal)) (items : List JVal) :
    normalizeLegacyHall nowIso2 (legacyCanonicalDoc nowIso fields items)
      = .ok (legacyCanonicalDoc nowIso fields items) := by
  have hlook : (jLookup (legacyCanonicalFields nowIso fields items)
      (chars "meals")).isSome = true := by
    unfold legacyCanonicalFields
    rw [jLookup_cons, if_neg (by decide), jLookup_cons, if_pos rfl]
    rfl
  unfold legacyCanonicalDoc
  simp only [normalizeLegacyHall]
  rw [if_pos hlook]

/-- Any successful output of `legacyHallFromItems` is a fixed point of the
normalizer. -/
theorem legacyHallFromItems_fix (nowIso : List Char)
    (fields : List (List Char × JVal)) (xs : List JVal) (y : JVal)
    (h : legacyHallFromItems nowIso fields xs = .ok y) (nowIso2 : List Char) :
    normalizeLegacyHall nowIso2 y = .ok y := by
  unfold legacyHallFromItems at h
  cases hb : buildItems xs with
  | error e => rw [hb] at h; cases h
  | ok items =>
      rw [hb] at h
      injection h with h'
      subst h'
      exact normalizeLegacyHall_canonical nowIso2 nowIso fields items

/-- Any successful output of the legacy normalizer is one of its fixed
points. -/
theorem normalizeLegacyHall_ok_fix (nowIso : List Char) (x y : JVal)
    (hx : normalizeLegacyHall nowIso x = .ok y) (nowIso2 : List Char) :
    normalizeLegacyHall nowIso2 y = .ok y := by
  cases x with
  | null => simp [normalizeLegacyHall] at hx
  | bool b => simp [normalizeLegacyHall] at hx
  | num q => simp [normalizeLegacyHall] at hx
  | str cs =>
      by_cases hc : (splitOnceSub (chars "meals") cs).isSome = true
      · simp [normalizeLegacyHall, hc] at hx
        subst hx
        simp [normalizeLegacyHall, hc]
      · simp [normalizeLegacyHall, hc] at hx
  | arr elems =>
      by_cases hc : (elems.any (fun e => match e with
          | .str s => decide (s = chars "meals")
          | _ => false)) = true
      · simp only [normalizeLegacyHall, hc, if_true] at hx
        injection hx with h'
        subst h'
        simp only [normalizeLegacyHall, hc, if_true]
      · simp only [normalizeLegacyHall, hc, Bool.false_eq_true, if_false] at hx
        cases hx
  | obj fields =>
      by_cases hm : (jLookup fields (chars "meals")).isSome = true
      · simp [normalizeLegacyHall, hm] at hx
        subst hx
        simp [normalizeLegacyHall, hm]
      · simp only [normalizeLegacyHall, hm, Bool.false_eq_true, if_false] at hx
        cases hraw : pyOr (jGetD fields (chars "food_items_with_nutrition") .null)
            (pyOr (jGetD fields (chars "food_items") .null) (.arr [])) with
        | null => rw [hraw] at hx; simp at hx
        | bool b => rw [hraw] at hx; simp at hx
        | num q => rw [hraw] at hx; simp at hx
        | str cs =>
            rw [hraw] at hx
            simp only at hx
            exact legacyHallFromItems_fix nowIso fields _ y hx nowIso2
        | arr xs =>
            rw [hraw] at hx
            simp only at hx
            exact legacyHallFromItems_fix nowIso fields _ y hx nowIso2
        | obj d =>
            rw [hraw] at hx
            simp only at hx
            exact legacyHallFromItems_fix nowIso fields _ y hx nowIso2

/-- Updating one list position exchanges its contribution to a count. -/
theorem countP_set (p : ThreadPhase → Bool) :
    ∀ (l : List ThreadPhase) (i : Nat) (a b : ThreadPhase), l[i]? = some a →
      (l.set i b).countP p + (if p a then 1 else 0)
        = l.countP p + (if p b then 1 else 0) := by
  intro l
  induction l with
  | nil => intro i a b h; simp at h
  | cons x xs ih =>
      intro i a b h
      cases i with
      | zero =>
          simp at h
          subst h
          simp only [List.set, List.countP_cons]
          split_ifs <;> omega
      | succ n =>
          simp at h
          have hih := ih n a b h
          simp only [List.set, List.countP_cons]
          split_ifs at * <;> omega

/-- The state invariant of the refresh orchestrator: when the
`_refresh_in_progress` event is clear no run is active, and there is never
more than one active run. -/
theorem refresh_reachable_inv (s : RefreshState) (h : RefreshReachable s) :
    runningCount s ≤ 1 ∧ (s.inProgress = false → runningCount s = 0) := by
  induction h with
  | init => exact ⟨Nat.zero_le 1, fun _ => rfl⟩
  | step hr hstep ih =>
      rename_i s' t'
      cases hstep with
      | spawn =>
          have hcount : runningCount ⟨s'.inProgress, s'.threads ++ [.idle]⟩
              = runningCount s' := by
            unfold runningCount
            simp [List.countP_append, List.countP_cons]
          exact ⟨by rw [hcount]; exact ih.1, fun hf => by rw [hcount]; exact ih.2 hf⟩
      | enterBusy i hi hf =>
          have hcount := countP_set (fun t => decide (t = ThreadPhase.running))
            s'.threads i .idle .doneNoop hi
          rw [if_neg (by decide), if_neg (by decide)] at hcount
          have heq : runningCount ⟨true, s'.threads.set i .doneNoop⟩
              = runningCount s' := by
            unfold runningCount
            show List.countP (fun t => decide (t = ThreadPhase.running))
              (s'.threads.set i ThreadPhase.doneNoop) = _
            omega
          exact ⟨by rw [heq]; exact ih.1, fun hfalse => by cases hfalse⟩
      | enterFree i hi hf =>
          have hcount := countP_set (fun t => decide (t = ThreadPhase.running))
            s'.threads i .idle .running hi
          rw [if_neg (by decide), if_pos (by decide)] at hcount
          have hzero := ih.2 hf
          unfold runningCount at hzero
          have heq : runningCount ⟨true, s'.threads.set i .running⟩ = 1 := by
            unfold runningCount
            show List.countP (fun t => decide (t = ThreadPhase.running))
              (s'.threads.set i ThreadPhase.running) = 1
            omega
          exact ⟨by rw [heq], fun hfalse => by cases hfalse⟩
      | finish i ok hi =>
          have hcount := countP_set (fun t => decide (t = ThreadPhase.running))
            s'.threads i .running .doneRan hi
          rw [if_pos (by decide), if_neg (by decide)] at hcount
          have hle := ih.1
          unfold runningCount at hle
          have heq : runningCount ⟨false, s'.threads.set i .doneRan⟩ = 0 := by
            unfold runningCount
            show List.countP (fun t => decide (t = ThreadPhase.running))
              (s'.threads.set i ThreadPhase.doneRan) = 0
            omega
          exact ⟨by rw [heq]; exact Nat.zero_le 1, fun _ => heq⟩

/-! ## Claims -/

/-- C1: `get_averages` is claimed to resolve each hall's current meal period
and return the stored average/count per hall key; in fact every request to
the endpoint fails, because the function body reads the unbound name
`hall_name` (and contains an inconsistently indented duplicate return
block), so no averages response is ever produced. -/
theorem c1_get_averages_raises :
    ∀ universityArg : Option (List Char),
      getAveragesEndpoint universityArg = .error .nameError := by
  intro u
  rfl

/-- C2: `_parse_time_to_minutes` maps every valid `"H:MM AM/PM"` string
(hour 1-12 without leading zero, minute 00-59, optional surrounding
whitespace) to the expected minutes-since-midnight — 12 AM is hour 0 and
12 PM is hour 12 — and returns `none` when the colon is missing, the hour
or minute is non-numeric, or the input does not split into exactly a time
token and an AM/PM token. -/
theorem c2_parse_time_of_day :
    (∀ ws1 ws2 hd md ap : List Char, ∀ hourN minuteN : Nat,
      (∀ c ∈ ws1, pyIsSpace c = true) → (∀ c ∈ ws2, pyIsSpace c = true) →
      digitsToNat? hd = some hourN → digitsToNat? md = some minuteN →
      1 ≤ hourN → hourN ≤ 12 → minuteN ≤ 59 →
      (ap = chars "AM" ∨ ap = chars "PM") →
      parseTimeToMinutes (ws1 ++ ((hd ++ ':' :: md) ++ ' ' :: (ap ++ ws2)))
        = some (if ap = chars "PM"
            then (if hourN = 12 then 720 + (minuteN : Int)
              else ((hourN : Int) + 12) * 60 + (minuteN : Int))
            else (if hourN = 12 then (minuteN : Int)
              else (hourN : Int) * 60 + (minuteN : Int))))
    ∧ parseTimeToMinutes (chars "12:00 AM") = some 0
    ∧ parseTimeToMinutes (chars "12:00 PM") = some 720
    ∧ parseTimeToMinutes (chars "11:59 PM") = some 1439
    ∧ (∀ s tok1 tok2 : List Char, pySplitWs (stripWs s) = [tok1, tok2] →
        (∀ c ∈ tok1, c ≠ ':') → parseTimeToMinutes s = none)
    ∧ (∀ s tok1 tok2 hs ms : List Char, pySplitWs (stripWs s) = [tok1, tok2] →
        splitAtChar ':' tok1 = some (hs, ms) →
        (pyInt? hs = none ∨ pyInt? ms = none) → parseTimeToMinutes s = none)
    ∧ (∀ s : List Char, (pySplitWs (stripWs s)).length ≠ 2 →
        parseTimeToMinutes s = none) := by
  refine ⟨?_, by decide, by decide, by decide, ?_, ?_, ?_⟩
  · intro ws1 ws2 hd md ap hourN minuteN h1 h2 h3 h4 _ _ _ hap
    rcases hap with rfl | rfl
    · rw [parseTimeToMinutes_decomposed ws1 ws2 hd md (chars "AM") hourN minuteN
        h1 h2 h3 h4 (by decide) (by decide)]
      rw [if_neg (by decide : ¬ chars "AM" = chars "PM")]
      have hb : (decide (upperChars (chars "AM") = chars "PM")) = false := by decide
      rw [hb, timeValue_false]
      by_cases h12 : hourN = 12
      · subst h12; norm_num
      · rw [if_neg (by exact_mod_cast h12), if_neg h12]
    · rw [parseTimeToMinutes_decomposed ws1 ws2 hd md (chars "PM") hourN minuteN
        h1 h2 h3 h4 (by decide) (by decide)]
      rw [if_pos rfl]
      have hb : (decide (upperChars (chars "PM") = chars "PM")) = true := by decide
      rw [hb, timeValue_true]
      by_cases h12 : hourN = 12
      · subst h12; norm_num
      · rw [if_neg (by exact_mod_cast h12), if_neg h12]
  · intro s t1 t2 hsplit hcol
    unfold parseTimeToMinutes
    by_cases hs : s = []
    · simp [hs]
    · rw [if_neg hs, hsplit]
      show parseTimeWithParts t1 t2 = none
      unfold parseTimeWithParts
      rw [splitAtChar_not_mem t1 ':' hcol]
  · intro s t1 t2 hs ms hsplit hcolon hbad
    unfold parseTimeToMinutes
    by_cases hse : s = []
    · simp [hse]
    · rw [if_neg hse, hsplit]
      show parseTimeWithParts t1 t2 = none
      unfold parseTimeWithParts
      rw [hcolon]
      show parseTimeOfParsed (pyInt? hs) (pyInt? ms) t2 = none
      rcases hbad with hb | hb
      · rw [hb]; rfl
      · rw [hb]; cases hfirst : pyInt? hs <;> rfl
  · intro s hlen
    unfold parseTimeToMinutes
    by_cases hs : s = []
    · simp [hs]
    · rw [if_neg hs]
      exact parseTimeFromParts_ne_two _ hlen

/-- Witness for C2: `" 11:59 PM "` (with surrounding whitespace) parses to
1439 minutes. -/
theorem c2_parse_time_of_day_witness :
    parseTimeToMinutes (chars " 11:59 PM ") = some 1439 := by
  have h := c2_parse_time_of_day.1 [' '] [' '] ['1', '1'] ['5', '9']
    (chars "PM") 11 59 (by decide) (by decide) (by decide) (by decide)
    (by decide) (by decide) (by decide) (Or.inr rfl)
  rw [show chars " 11:59 PM "
      = [' '] ++ ((['1', '1'] ++ ':' :: ['5', '9']) ++ ' ' :: (chars "PM" ++ [' ']))
    from rfl]
  rw [h]
  decide

/-- C10: `_parse_time_to_minutes` is lenient: any two-token input whose
first token is `digits:digits` parses, regardless of hour/minute bounds or
of the second token's value; a second token whose uppercase form is not
`"PM"` is treated as AM, and the result can reach or exceed 1440 — e.g.
`"13:99 AM"` gives 879 and `"25:00 PM"` gives 2220. -/
theorem c10_lenient_time_parse :
    (∀ ws1 ws2 hd md suf : List Char, ∀ hourN minuteN : Nat,
      (∀ c ∈ ws1, pyIsSpace c = true) → (∀ c ∈ ws2, pyIsSpace c = true) →
      digitsToNat? hd = some hourN → digitsToNat? md = some minuteN →
      suf ≠ [] → (∀ c ∈ suf, pyIsSpace c = false) →
      parseTimeToMinutes (ws1 ++ ((hd ++ ':' :: md) ++ ' ' :: (suf ++ ws2)))
        = some (timeValue hourN minuteN (upperChars suf = chars "PM")))
    ∧ (∀ hourN minuteN : Nat, ∀ suf : List Char,
        upperChars suf ≠ chars "PM" →
        timeValue hourN minuteN (upperChars suf = chars "PM")
          = timeValue hourN minuteN false)
    ∧ parseTimeToMinutes (chars "13:99 AM") = some 879
    ∧ parseTimeToMinutes (chars "25:00 PM") = some 2220
    ∧ (∃ v : Int, parseTimeToMinutes (chars "25:00 PM") = some v ∧ 1440 ≤ v) := by
  refine ⟨?_, ?_, by decide, by decide, ⟨2220, by decide, by decide⟩⟩
  · intro ws1 ws2 hd md suf hourN minuteN h1 h2 h3 h4 h5 h6
    exact parseTimeToMinutes_decomposed ws1 ws2 hd md suf hourN minuteN
      h1 h2 h3 h4 h5 h6
  · intro hourN minuteN suf hne
    rw [show (decide (upperChars suf = chars "PM")) = false by
      simpa using hne]

/-- Witness for C10: the non-time string `"99:99 XY"` still parses, to the
out-of-clock value 6039. -/
theorem c10_lenient_time_parse_witness :
    parseTimeToMinutes (chars "99:99 XY") = some 6039 := by
  have h := c10_lenient_time_parse.1 [] [] ['9', '9'] ['9', '9']
    (chars "XY") 99 99 (by decide) (by decide) (by decide) (by decide)
    (by decide) (by decide)
  rw [show chars "99:99 XY"
      = [] ++ ((['9', '9'] ++ ':' :: ['9', '9']) ++ ' ' :: (chars "XY" ++ []))
    from rfl]
  rw [h]
  decide

/-- C3: `_parse_time_range` normalizes any of the separators `" - "`,
`" to "`, `" – "` (en dash) and `" — "` (em dash) between two clean time
strings to the single hyphen-with-spaces form `" - "`, splits on its first
occurrence, and returns the pair of parsed sides; it returns `none` when no
separator occurs in the normalized string or when either side fails
`_parse_time_to_minutes`. -/
theorem c3_parse_time_range :
    (∀ a b sep : List Char,
      (sep = chars " - " ∨ sep = chars " to "
        ∨ sep = chars " – " ∨ sep = chars " — ") →
      cleanRangeSide a → cleanRangeSide b →
      normalizeSeps (a ++ (sep ++ b)) = a ++ (chars " - " ++ b)
      ∧ splitOnceSub (chars " - ") (normalizeSeps (a ++ (sep ++ b))) = some (a, b)
      ∧ ∀ x y : Int, parseTimeToMinutes (stripWs a) = some x →
          parseTimeToMinutes (stripWs b) = some y →
          parseTimeRange (a ++ (sep ++ b)) = some (x, y))
    ∧ (∀ s : List Char, splitOnceSub (chars " - ") (normalizeSeps s) = none →
        parseTimeRange s = none)
    ∧ (∀ s a b : List Char,
        splitOnceSub (chars " - ") (normalizeSeps s) = some (a, b) →
        (parseTimeToMinutes (stripWs a) = none
          ∨ parseTimeToMinutes (stripWs b) = none) →
        parseTimeRange s = none) := by
  refine ⟨?_, ?_, ?_⟩
  · intro a b sep hsep ha hb
    have hnorm := normalizeSeps_sep a b sep ha hb hsep
    have hsplit : splitOnceSub (chars " - ") (normalizeSeps (a ++ (sep ++ b)))
        = some (a, b) := by
      rw [hnorm, splitOnceSub_skip a (fun c hc => (ha c hc).2.1) _ (by
          exact fun hx => by
            rw [show (chars " - " ++ b).head? = some ' ' from rfl] at hx
            cases hx),
        splitOnceSub_at_sep b]
      simp
    refine ⟨hnorm, hsplit, ?_⟩
    intro x y hx hy
    have hne : a ++ (sep ++ b) ≠ [] := by
      rcases hsep with rfl | rfl | rfl | rfl <;> simp [chars]
    unfold parseTimeRange
    rw [if_neg hne, hsplit]
    show rangeFromSides a b = some (x, y)
    unfold rangeFromSides
    rw [hx, hy]
  · intro s h
    unfold parseTimeRange
    by_cases hs : s = []
    · simp [hs]
    · rw [if_neg hs, h]
  · intro s a b hsplit hbad
    unfold parseTimeRange
    by_cases hs : s = []
    · rw [hs] at hsplit
      rw [show normalizeSeps [] = [] from rfl] at hsplit
      cases hsplit
    · rw [if_neg hs, hsplit]
      show rangeFromSides a b = none
      unfold rangeFromSides
      rcases hbad with hb | hb
      · rw [hb]
      · rw [hb]
        cases hfirst : parseTimeToMinutes (stripWs a) <;> rfl

/-- Witness for C3: the `" to "` separator between two valid times parses
to the minute pair. -/
theorem c3_parse_time_range_witness :
    parseTimeRange (chars "7:00 AM to 10:30 AM") = some (420, 630) := by
  have h := (c3_parse_time_range.1 (chars "7:00 AM") (chars "10:30 AM")
    (chars " to ") (Or.inr (Or.inl rfl)) (by decide) (by decide)).2.2
    420 630 (by decide) (by decide)
  rw [show chars "7:00 AM to 10:30 AM"
      = chars "7:00 AM" ++ (chars " to " ++ chars "10:30 AM") from rfl]
  exact h

/-- C4: `_is_time_in_range` decides the half-open interval `[start, end)`
when `start <= end`, and when `end < start` it wraps past midnight, holding
exactly when `current >= start` or `current < end`; in particular
`isInRange(23*60, 22*60, 6*60)` is true and `isInRange(7*60, 22*60, 6*60)`
is false. -/
theorem c4_is_time_in_range :
    (∀ current s e : Int, s ≤ e →
      (isTimeInRange current s e = true ↔ s ≤ current ∧ current < e))
    ∧ (∀ current s e : Int, e < s →
      (isTimeInRange current s e = true ↔ current ≥ s ∨ current < e))
    ∧ isTimeInRange (23 * 60) (22 * 60) (6 * 60) = true
    ∧ isTimeInRange (7 * 60) (22 * 60) (6 * 60) = false := by
  refine ⟨?_, ?_, by decide, by decide⟩
  · intro c s e h
    unfold isTimeInRange
    rw [if_neg (not_lt.mpr h)]
    simp
  · intro c s e h
    unfold isTimeInRange
    rw [if_pos h]
    simp

/-- Witness for C4 at a concrete non-wrapping interval. -/
theorem c4_is_time_in_range_witness :
    (22 * 60 : Int) ≤ 23 * 60
    ∧ (isTimeInRange (22 * 60 + 30) (22 * 60) (23 * 60) = true
        ↔ (22 * 60 : Int) ≤ 22 * 60 + 30 ∧ (22 * 60 + 30 : Int) < 23 * 60) :=
  ⟨by decide, c4_is_time_in_range.1 (22 * 60 + 30) (22 * 60) (23 * 60) (by decide)⟩

/-- C5: the meal-period resolver returns the global default for a hall with
no meal blocks; otherwise it returns the normalized type of the first block
whose range parses and contains the current minute, falling back to the
first block's normalized type (regardless of its time) when no block
matches or parses.  Normalization trims, lowercases and underscores the
raw type, collapses any value starting with `"late"` to `"late_night"`,
passes `"all_day"` through, and maps empty/missing to `"unknown"`. -/
theorem c5_hall_period_resolver :
    (∀ defaultPeriod : List Char, ∀ now : Int,
      getHallCurrentPeriod defaultPeriod now [] = defaultPeriod)
    ∧ (∀ defaultPeriod : List Char, ∀ now : Int, ∀ first : MealBlock,
        ∀ rest : List MealBlock,
        getHallCurrentPeriod defaultPeriod now (first :: rest)
          = match (first :: rest).find? (mealMatches now) with
            | some m => normalizeMealType m.meal_type
            | none => normalizeMealType first.meal_type)
    ∧ normalizeMealType none = chars "unknown"
    ∧ normalizeMealType (some []) = chars "unknown"
    ∧ (∀ s : List Char, s ≠ [] →
        (chars "late").isPrefixOf (canonMeal s) = true →
        normalizeMealType (some s) = chars "late_night")
    ∧ (∀ s : List Char, s ≠ [] →
        (chars "late").isPrefixOf (canonMeal s) = false →
        normalizeMealType (some s) = canonMeal s)
    ∧ normalizeMealType (some (chars " Late Night ")) = chars "late_night"
    ∧ normalizeMealType (some (chars "All Day")) = chars "all_day"
    ∧ normalizeMealType (some (chars "Breakfast")) = chars "breakfast" := by
  refine ⟨fun d now => rfl, ?_, by decide, by decide, ?_, ?_,
    by decide, by decide, by decide⟩
  · intro d now first rest
    show (match hallPeriodLoop now (first :: rest) with
      | some p => p
      | none => normalizeMealType first.meal_type) = _
    rw [hallPeriodLoop_find]
    cases hf : (first :: rest).find? (mealMatches now) <;> simp
  · intro s hne hlate
    simp [normalizeMealType, hne, hlate]
  · intro s hne hlate
    simp only [normalizeMealType, if_neg hne, hlate, Bool.false_eq_true,
      if_false]
    by_cases hall : canonMeal s = chars "all_day"
    · rw [if_pos hall, hall]
    · rw [if_neg hall]

/-- Witness for C5: at 23:30, the spec's example hall (breakfast
7:00-10:30 AM, late night 10:00 PM-1:00 AM) resolves to `"late_night"`,
and a nonempty type starting with `"late"` normalizes to `"late_night"`. -/
theorem c5_hall_period_resolver_witness :
    getHallCurrentPeriod (chars "brunch") (23 * 60 + 30)
      [⟨some (chars "Breakfast"), chars "7:00 AM - 10:30 AM"⟩,
       ⟨some (chars "Late Night"), chars "10:00 PM - 1:00 AM"⟩]
      = chars "late_night"
    ∧ normalizeMealType (some (chars "LATE snack")) = chars "late_night" := by
  constructor
  · rw [c5_hall_period_resolver.2.1 (chars "brunch") (23 * 60 + 30)
      ⟨some (chars "Breakfast"), chars "7:00 AM - 10:30 AM"⟩
      [⟨some (chars "Late Night"), chars "10:00 PM - 1:00 AM"⟩]]
    decide
  · exact c5_hall_period_resolver.2.2.2.2.1 (chars "LATE snack")
      (by decide) (by decide)

/-- C6: the legacy-schema normalization is idempotent — applying it to its
own (successful) output returns that output unchanged, for every input
document and any pair of clock readings — and a document that already has a
`meals` key is returned unchanged (identity passthrough). -/
theorem c6_normalize_idempotent :
    (∀ nowIso nowIso2 : List Char, ∀ x : JVal,
      (normalizeLegacyHall nowIso x).bind (normalizeLegacyHall nowIso2)
        = normalizeLegacyHall nowIso x)
    ∧ (∀ nowIso : List Char, ∀ fields : List (List Char × JVal),
        (jLookup fields (chars "meals")).isSome = true →
        normalizeLegacyHall nowIso (.obj fields) = .ok (.obj fields)) := by
  constructor
  · intro n1 n2 x
    cases hx : normalizeLegacyHall n1 x with
    | error e => rfl
    | ok y =>
        show normalizeLegacyHall n2 y = Except.ok y
        exact normalizeLegacyHall_ok_fix n1 x y hx n2
  · intro n fields hm
    simp only [normalizeLegacyHall]
    rw [if_pos hm]

/-- Witness for C6: a document that already has `meals` passes through. -/
theorem c6_normalize_idempotent_witness :
    (jLookup [(chars "meals", JVal.arr [])] (chars "meals")).isSome = true
    ∧ normalizeLegacyHall (chars "2026-10-12T00:00:00")
        (.obj [(chars "meals", JVal.arr [])])
      = .ok (.obj [(chars "meals", JVal.arr [])]) :=
  ⟨rfl, c6_normalize_idempotent.2 (chars "2026-10-12T00:00:00")
    [(chars "meals", JVal.arr [])] rfl⟩

/-- C7: a rating submission is rejected with a validation error exactly when
a required field is missing (or the body is absent/empty), the rating is not
numeric, or the numeric rating lies outside `[0, 10]`; otherwise the rating
is rounded to one decimal before storage — in particular 10.05 and -1 are
rejected, `"abc"` is rejected, and 7.46 is stored as 7.5. -/
theorem c7_rating_validation :
    (∀ period : List Char, postRating period none = .missingFields)
    ∧ (∀ period : List Char, ∀ kvs : List (List Char × JVal),
        (kvs.isEmpty || !requiredPresent kvs) = true →
        postRating period (some kvs) = .missingFields)
    ∧ (∀ period : List Char, ∀ kvs : List (List Char × JVal), ∀ rv : JVal,
        (kvs.isEmpty || !requiredPresent kvs) = false →
        jLookup kvs (chars "rating") = some rv → pyFloat? rv = none →
        postRating period (some kvs) = .notANumber)
    ∧ (∀ period : List Char, ∀ kvs : List (List Char × JVal), ∀ rv : JVal,
        ∀ q : ℚ, (kvs.isEmpty || !requiredPresent kvs) = false →
        jLookup kvs (chars "rating") = some rv → pyFloat? rv = some q →
        ¬ (0 ≤ q ∧ q ≤ 10) →
        postRating period (some kvs) = .outOfRange)
    ∧ (∀ period : List Char, ∀ kvs : List (List Char × JVal), ∀ rv : JVal,
        ∀ q : ℚ, ∀ u : List Char,
        (kvs.isEmpty || !requiredPresent kvs) = false →
        jLookup kvs (chars "rating") = some rv → pyFloat? rv = some q →
        0 ≤ q → q ≤ 10 → jLookup kvs (chars "university") = some (.str u) →
        postRating period (some kvs)
          = .success period (lowerChars u) (pyRound1 q))
    ∧ (∀ period : List Char, ∀ kvs : List (List Char × JVal),
        validationRejected (postRating period (some kvs)) = true →
        (kvs.isEmpty || !requiredPresent kvs) = true
        ∨ ∃ rv : JVal, jLookup kvs (chars "rating") = some rv
            ∧ (pyFloat? rv = none
              ∨ ∃ q : ℚ, pyFloat? rv = some q ∧ ¬ (0 ≤ q ∧ q ≤ 10)))
    ∧ postRating (chars "lunch") (some (sampleBody (.num (1005 / 100))))
        = .outOfRange
    ∧ postRating (chars "lunch") (some (sampleBody (.num (-1)))) = .outOfRange
    ∧ postRating (chars "lunch") (some (sampleBody (.str (chars "abc"))))
        = .notANumber
    ∧ postRating (chars "lunch") (some (sampleBody (.num (746 / 100))))
        = .success (chars "lunch") (chars "columbia") (75 / 10) := by
  have gen2 : ∀ period : List Char, ∀ kvs : List (List Char × JVal),
      (kvs.isEmpty || !requiredPresent kvs) = true →
      postRating period (some kvs) = .missingFields := by
    intro period kvs h
    show (if (kvs.isEmpty || !requiredPresent kvs) = true
      then RatingOutcome.missingFields
      else ratingOutcomeOfBody period kvs) = _
    rw [if_pos h]
  have gen3 : ∀ period : List Char, ∀ kvs : List (List Char × JVal),
      ∀ rv : JVal, (kvs.isEmpty || !requiredPresent kvs) = false →
      jLookup kvs (chars "rating") = some rv → pyFloat? rv = none →
      postRating period (some kvs) = .notANumber := by
    intro period kvs rv hg hlook hfl
    show (if (kvs.isEmpty || !requiredPresent kvs) = true
      then RatingOutcome.missingFields
      else ratingOutcomeOfBody period kvs) = _
    rw [if_neg (by simp [hg])]
    unfold ratingOutcomeOfBody
    rw [hlook]
    show ratingOutcomeOfParsed period kvs (pyFloat? rv) = _
    rw [hfl]
    rfl
  have gen4 : ∀ period : List Char, ∀ kvs : List (List Char × JVal),
      ∀ rv : JVal, ∀ q : ℚ, (kvs.isEmpty || !requiredPresent kvs) = false →
      jLookup kvs (chars "rating") = some rv → pyFloat? rv = some q →
      ¬ (0 ≤ q ∧ q ≤ 10) →
      postRating period (some kvs) = .outOfRange := by
    intro period kvs rv q hg hlook hfl hr
    show (if (kvs.isEmpty || !requiredPresent kvs) = true
      then RatingOutcome.missingFields
      else ratingOutcomeOfBody period kvs) = _
    rw [if_neg (by simp [hg])]
    unfold ratingOutcomeOfBody
    rw [hlook]
    show ratingOutcomeOfParsed period kvs (pyFloat? rv) = _
    rw [hfl]
    show ratingOutcomeOfValue period kvs q = _
    unfold ratingOutcomeOfValue
    rw [if_neg hr]
  have gen5 : ∀ period : List Char, ∀ kvs : List (List Char × JVal),
      ∀ rv : JVal, ∀ q : ℚ, ∀ u : List Char,
      (kvs.isEmpty || !requiredPresent kvs) = false →
      jLookup kvs (chars "rating") = some rv → pyFloat? rv = some q →
      0 ≤ q → q ≤ 10 → jLookup kvs (chars "university") = some (.str u) →
      postRating period (some kvs)
        = .success period (lowerChars u) (pyRound1 q) := by
    intro period kvs rv q u hg hlook hfl h0 h10 huni
    show (if (kvs.isEmpty || !requiredPresent kvs) = true
      then RatingOutcome.missingFields
      else ratingOutcomeOfBody period kvs) = _
    rw [if_neg (by simp [hg])]
    unfold ratingOutcomeOfBody
    rw [hlook]
    show ratingOutcomeOfParsed period kvs (pyFloat? rv) = _
    rw [hfl]
    show ratingOutcomeOfValue period kvs q = _
    unfold ratingOutcomeOfValue
    rw [if_pos ⟨h0, h10⟩, huni]
  refine ⟨fun _ => rfl, gen2, gen3, gen4, gen5, ?_, ?_, ?_, ?_, ?_⟩
  · intro period kvs hrej
    by_cases hg : (kvs.isEmpty || !requiredPresent kvs) = true
    · exact Or.inl hg
    · right
      have hg' : (kvs.isEmpty || !requiredPresent kvs) = false := by
        simpa using hg
      have hreq : requiredPresent kvs = true := by
        rcases Bool.or_eq_false_iff.mp hg' with ⟨_, h2⟩
        simpa using h2
      have hrsome : (jLookup kvs (chars "rating")).isSome = true := by
        have := hreq
        unfold requiredPresent requiredFields at this
        simp [List.all_cons] at this
        exact this.2.2.2
      cases hlook : jLookup kvs (chars "rating") with
      | none => rw [hlook] at hrsome; cases hrsome
      | some rv =>
          refine ⟨rv, rfl, ?_⟩
          cases hfl : pyFloat? rv with
          | none => exact Or.inl rfl
          | some q =>
              right
              refine ⟨q, rfl, ?_⟩
              intro hr
              have hsucc := gen5 period kvs rv q
              have : validationRejected (postRating period (some kvs)) = false := by
                show validationRejected
                  (if (kvs.isEmpty || !requiredPresent kvs) = true
                    then RatingOutcome.missingFields
                    else ratingOutcomeOfBody period kvs) = false
                rw [if_neg (by simp [hg'])]
                unfold ratingOutcomeOfBody
                rw [hlook]
                show validationRejected
                  (ratingOutcomeOfParsed period kvs (pyFloat? rv)) = false
                rw [hfl]
                show validationRejected (ratingOutcomeOfValue period kvs q) = false
                unfold ratingOutcomeOfValue
                rw [if_pos hr]
                cases huni : jLookup kvs (chars "university") with
                | none => rfl
                | some v => cases v <;> rfl
              rw [this] at hrej
              cases hrej
  · exact gen4 (chars "lunch") (sampleBody (.num (1005 / 100)))
      (.num (1005 / 100)) (1005 / 100) rfl rfl rfl (by norm_num)
  · exact gen4 (chars "lunch") (sampleBody (.num (-1)))
      (.num (-1)) (-1) rfl rfl rfl (by norm_num)
  · exact gen3 (chars "lunch") (sampleBody (.str (chars "abc")))
      (.str (chars "abc")) rfl rfl (by decide)
  · rw [gen5 (chars "lunch") (sampleBody (.num (746 / 100)))
      (.num (746 / 100)) (746 / 100) (chars "Columbia") rfl rfl rfl
      (by norm_num) (by norm_num) rfl]
    rw [show lowerChars (chars "Columbia") = chars "columbia" from by decide,
      pyRound1_eq_of_near (746 / 100) 75 (by norm_num) (by norm_num)]
    norm_num

/-- Witness for C7: an integer rating of 11 is rejected as out of range. -/
theorem c7_rating_validation_witness :
    postRating (chars "lunch") (some (sampleBody (.num 11))) = .outOfRange :=
  c7_rating_validation.2.2.2.1 (chars "lunch") (sampleBody (.num 11))
    (.num 11) 11 rfl rfl rfl (by norm_num)

/-- C8: the combined scrape result is discarded (the previous menu file kept
unchanged) exactly when more than half of its hall entries have error
status; otherwise it is written, replacing the previous file wholesale. -/
theorem c8_refresh_save_guard (prevFile : Option (List ScrapeRecord))
    (allResults : List ScrapeRecord) :
    (2 * errorCount allResults > allResults.length →
      saveCombinedResults prevFile allResults = prevFile)
    ∧ (¬ 2 * errorCount allResults > allResults.length →
      saveCombinedResults prevFile allResults = some allResults) := by
  unfold saveCombinedResults
  constructor
  · intro h
    have hne : allResults.isEmpty = false := by
      cases allResults with
      | nil => simp [errorCount] at h
      | cons a l => rfl
    rw [if_pos ⟨by simp [hne], (half_lt_cast_iff _ _).mpr h⟩]
  · intro h
    rw [if_neg]
    intro hcond
    exact h ((half_lt_cast_iff _ _).mp hcond.2)

/-- C9: at most one refresh run is ever in flight; a trigger while a run is
active is a non-blocking silent no-op (the thread moves to `doneNoop`, the
flag and every other thread are untouched, nothing is queued and no error is
reported); finishing a run — whether `update_menus` returned or raised —
clears the flag; and from any reachable idle state a later trigger starts a
new run. -/
theorem c9_refresh_mutex :
    (∀ s : RefreshState, RefreshReachable s → runningCount s ≤ 1)
    ∧ (∀ s : RefreshState, ∀ i : Nat,
        s.threads[i]? = some ThreadPhase.idle →
        s.inProgress = true →
        RefreshStep s ⟨true, s.threads.set i ThreadPhase.doneNoop⟩
        ∧ runningCount ⟨true, s.threads.set i ThreadPhase.doneNoop⟩
          = runningCount s)
    ∧ (∀ s : RefreshState, ∀ i : Nat, ∀ _outcome : Bool,
        s.threads[i]? = some ThreadPhase.running →
        RefreshStep s ⟨false, s.threads.set i ThreadPhase.doneRan⟩)
    ∧ (∀ s : RefreshState, RefreshReachable s → s.inProgress = false →
        RefreshStep s ⟨s.inProgress, s.threads ++ [ThreadPhase.idle]⟩
        ∧ RefreshStep ⟨s.inProgress, s.threads ++ [ThreadPhase.idle]⟩
            ⟨true, (s.threads ++ [ThreadPhase.idle]).set s.threads.length
              ThreadPhase.running⟩
        ∧ runningCount
            ⟨true, (s.threads ++ [ThreadPhase.idle]).set s.threads.length
              ThreadPhase.running⟩ = 1) := by
  refine ⟨fun s hs => (refresh_reachable_inv s hs).1, ?_, ?_, ?_⟩
  · intro s i hi hf
    refine ⟨?_, ?_⟩
    · have hstep := RefreshStep.enterBusy s i hi hf
      exact hstep
    · have hcount := countP_set (fun t => decide (t = ThreadPhase.running))
        s.threads i .idle .doneNoop hi
      rw [if_neg (by decide), if_neg (by decide)] at hcount
      unfold runningCount
      show List.countP (fun t => decide (t = ThreadPhase.running))
        (s.threads.set i ThreadPhase.doneNoop) = _
      omega
  · intro s i ok hi
    exact RefreshStep.finish s i ok hi
  · intro s hs hf
    have hzero := (refresh_reachable_inv s hs).2 hf
    unfold runningCount at hzero
    have hidle : (s.threads ++ [ThreadPhase.idle])[s.threads.length]?
        = some ThreadPhase.idle := by
      simp
    refine ⟨RefreshStep.spawn s, ?_, ?_⟩
    · have hstep := RefreshStep.enterFree ⟨s.inProgress, s.threads ++ [.idle]⟩
        s.threads.length hidle hf
      exact hstep
    · have hcount := countP_set (fun t => decide (t = ThreadPhase.running))
        (s.threads ++ [.idle]) s.threads.length .idle .running hidle
      rw [if_neg (by decide), if_pos (by decide)] at hcount
      have happ : List.countP (fun t => decide (t = ThreadPhase.running))
          (s.threads ++ [ThreadPhase.idle])
            = List.countP (fun t => decide (t = ThreadPhase.running)) s.threads := by
        simp [List.countP_append, List.countP_cons]
      unfold runningCount
      show List.countP (fun t => decide (t = ThreadPhase.running))
        ((s.threads ++ [ThreadPhase.idle]).set s.threads.length
          ThreadPhase.running) = 1
      omega

/-- Witness for C9: from the reachable one-running-thread state, the count
is at most one, and a trigger on a fresh idle thread is a silent no-op. -/
theorem c9_refresh_mutex_witness :
    runningCount ⟨true, [ThreadPhase.running]⟩ ≤ 1
    ∧ (RefreshStep ⟨true, [ThreadPhase.running, ThreadPhase.idle]⟩
        ⟨true, [ThreadPhase.running, ThreadPhase.idle].set 1 ThreadPhase.doneNoop⟩
      ∧ runningCount
          ⟨true, [ThreadPhase.running, ThreadPhase.idle].set 1 ThreadPhase.doneNoop⟩
        = runningCount ⟨true, [ThreadPhase.running, ThreadPhase.idle]⟩) :=
  ⟨c9_refresh_mutex.1 ⟨true, [ThreadPhase.running]⟩
    (RefreshReachable.step
      (RefreshReachable.step RefreshReachable.init
        (RefreshStep.spawn initialRefreshState))
      (RefreshStep.enterFree ⟨false, [ThreadPhase.idle]⟩ 0 rfl rfl)),
   c9_refresh_mutex.2.1 ⟨true, [ThreadPhase.running, ThreadPhase.idle]⟩ 1 rfl rfl⟩

/-- Witness for C8: a majority-error result (2 of 3 entries in error) leaves
the previous file untouched. -/
theorem c8_refresh_save_guard_witness :
    2 * errorCount [[(chars "status", JVal.str (chars "error"))],
        [(chars "status", JVal.str (chars "error"))],
        [(chars "status", JVal.str (chars "open"))]] >
      ([[(chars "status", JVal.str (chars "error"))],
        [(chars "status", JVal.str (chars "error"))],
        [(chars "status", JVal.str (chars "open"))]] : List ScrapeRecord).length
    ∧ saveCombinedResults (some [[(chars "status", JVal.str (chars "open"))]])
        [[(chars "status", JVal.str (chars "error"))],
         [(chars "status", JVal.str (chars "error"))],
         [(chars "status", JVal.str (chars "open"))]]
      = some [[(chars "status", JVal.str (chars "open"))]] :=
  ⟨by decide,
    (c8_refresh_save_guard (some [[(chars "status", JVal.str (chars "open"))]])
      [[(chars "status", JVal.str (chars "error"))],
       [(chars "status", JVal.str (chars "error"))],
       [(chars "status", JVal.str (chars "open"))]]).1 (by decide)⟩

end ColumbiaCals

